/-
Verification development for the nokari bot's core subsystems:

* `nokari/utils/perms.py` — the permission engine (`_apply_overwrites`,
  `_ensure_perms`, `get_guild_perms`, `has_guild_perms`, `has_channel_perms`);
* `nokari/core/bot.py` — the prefix resolver (`_resolve_prefix`,
  `_get_prefixes`), the plugin batch loader (`load_extensions`) and the
  confirmation prompt (`prompt`);
* `nokari/core/commands.py` — the command runnability gate
  (`Command.is_runnable`).

Python machine-level conventions used throughout the embedding:

* Permission sets are arbitrary-precision non-negative integers (Python
  `int` bit sets), embedded as `Nat`.  `p & ~m` on non-negative ints equals
  `p ^^^ (p &&& m)`, which is how `clearBits` is defined.
* Strings are embedded as lists of code points (`List Nat`).  `str.lower`
  and `str.isspace` are embedded with their ASCII behaviour, which covers
  every string appearing in the repository and its spec.
* Fallible dictionary indexing (`d[k]`, raising `KeyError`) is embedded as
  an `Option`-returning lookup; `d.get(k)` likewise returns an `Option`.
-/
import Mathlib

namespace Nokari

/-! ## Permission flag constants

The bit assignments come from the `hikari.Permissions` enumeration (the
platform's permission flags, an external collaborator of this repository);
only the flags the source code names are reproduced here. -/

def ADMINISTRATOR : Nat := 2 ^ 3

def VIEW_CHANNEL : Nat := 2 ^ 10

def SEND_MESSAGES : Nat := 2 ^ 11

def SEND_TTS_MESSAGES : Nat := 2 ^ 12

def EMBED_LINKS : Nat := 2 ^ 14

def ATTACH_FILES : Nat := 2 ^ 15

def MENTION_ROLES : Nat := 2 ^ 17

/-- The hardcoded literal cleared by `_ensure_perms` when `VIEW_CHANNEL`
is absent: `hikari.Permissions(0b10110011111101111111111101010001)`. -/
def VIEW_CHANNEL_DEPENDENT_MASK : Nat := 0b10110011111101111111111101010001

/-- The full permission set `ALL = Permissions(0b111111111111111111111111111111111)`
defined locally in `get_guild_perms` (33 one bits). -/
def ALL_PERMS : Nat := 0b111111111111111111111111111111111

/-- Python `p & ~m` for non-negative big integers: drop from `p` every bit
that is set in `m`. -/
def clearBits (p m : Nat) : Nat := p ^^^ (p &&& m)

/-! ## Data model (read-only snapshots supplied by the cache) -/

/-- `hikari.Role`: only the fields read by `perms.py`. -/
structure Role where
  id : Nat
  permissions : Nat
  deriving DecidableEq, Repr

/-- `hikari.Member`: only the fields read by `perms.py` (`id`, `role_ids`). -/
structure Member where
  id : Nat
  role_ids : List Nat
  deriving DecidableEq, Repr

/-- `hikari.Guild`: `id`, `owner_id` and the role mapping (`guild.roles`,
also consulted by `guild.get_role`). -/
structure Guild where
  id : Nat
  owner_id : Nat
  roles : List (Nat × Role)
  deriving DecidableEq, Repr

/-- A channel permission overwrite: `allow` and `deny` bit sets. -/
structure Overwrite where
  allow : Nat
  deny : Nat
  deriving DecidableEq, Repr

/-- `hikari.GuildChannel`: only `permission_overwrites`, a mapping from
target id (role id, member id or the guild id for everyone) to `Overwrite`. -/
structure Channel where
  permission_overwrites : List (Nat × Overwrite)
  deriving DecidableEq, Repr

/-- Dictionary lookup on an association list (Python `d[k]` / `d.get(k)`). -/
def lookupMap {α : Type} (m : List (Nat × α)) (k : Nat) : Option α :=
  match m.find? (fun e => e.1 == k) with
  | none => none
  | some e => some e.2

/-! ## `nokari/utils/perms.py` -/

/-- `_apply_overwrites(perms, allow, deny) = (perms & ~deny) | allow`. -/
def _apply_overwrites (perms allow deny : Nat) : Nat :=
  clearBits perms deny ||| allow

/-- First `if` block of `_ensure_perms`: when `SEND_MESSAGES` is absent,
sequentially clear `SEND_TTS_MESSAGES`, `MENTION_ROLES`, `EMBED_LINKS`,
`ATTACH_FILES` (four `perms &= ~flag` statements). -/
def ensureSendStep (perms : Nat) : Nat :=
  if perms &&& SEND_MESSAGES = 0 then
    clearBits (clearBits (clearBits (clearBits perms SEND_TTS_MESSAGES)
      MENTION_ROLES) EMBED_LINKS) ATTACH_FILES
  else perms

/-- Second `if` block of `_ensure_perms`: when `VIEW_CHANNEL` is absent,
clear the hardcoded dependent mask (`perms.value &= ~mask`). -/
def ensureViewStep (perms : Nat) : Nat :=
  if perms &&& VIEW_CHANNEL = 0 then
    clearBits perms VIEW_CHANNEL_DEPENDENT_MASK
  else perms

/-- `_ensure_perms`: the two `if` blocks run in sequence on the mutable
local `perms`. -/
def _ensure_perms (perms : Nat) : Nat := ensureViewStep (ensureSendStep perms)

/-- The role-permission aggregation inside `get_guild_perms`: start from the
everyone role `guild.roles[guild.id]` (a fatal `KeyError` — `none` — when
missing) and fold `ret |= role.permissions` over the member's role ids,
silently skipping ids `guild.get_role` cannot resolve. -/
def aggregatedRolePerms (guild : Guild) (member : Member) : Option Nat :=
  match lookupMap guild.roles guild.id with
  | none => none
  | some everyone =>
    some (member.role_ids.foldl
      (fun ret role_id =>
        match lookupMap guild.roles role_id with
        | none => ret
        | some role => ret ||| role.permissions)
      everyone.permissions)

/-- `get_guild_perms(guild, member)`: owner short-circuits to `ALL`; then
aggregate role permissions; `ADMINISTRATOR` short-circuits to `ALL`;
otherwise return `_ensure_perms` of the aggregate. -/
def get_guild_perms (guild : Guild) (member : Member) : Option Nat :=
  if guild.owner_id = member.id then some ALL_PERMS
  else
    match aggregatedRolePerms guild member with
    | none => none
    | some ret =>
      if ret &&& ADMINISTRATOR ≠ 0 then some ALL_PERMS
      else some (_ensure_perms ret)

/-- `has_guild_perms(bot, member, perms, guild)` (the `_auto_pass_guild`
decorator only supplies the `guild` argument, passed explicitly here). -/
def has_guild_perms (guild : Guild) (member : Member) (perms : Nat) :
    Option Bool :=
  (get_guild_perms guild member).map (fun base => base &&& perms == perms)

/-- The effective channel-scoped permission set computed inside
`has_channel_perms` before the final containment test.  Faithful to the
source statement order: guild-wide base, then
`everyone = channel.permission_overwrites[guild.id]` (a fatal `KeyError` —
`none` — when missing) applied via `_apply_overwrites`, then one combined
allow/deny pair folded over the member's role ids and applied once, then
the member-specific overwrite when present, then `_ensure_perms`. -/
def channel_perms (guild : Guild) (member : Member) (channel : Channel) :
    Option Nat :=
  match get_guild_perms guild member with
  | none => none
  | some base =>
    match lookupMap channel.permission_overwrites guild.id with
    | none => none
    | some everyone =>
      let base := _apply_overwrites base everyone.allow everyone.deny
      let ad := member.role_ids.foldl
        (fun (ad : Nat × Nat) role_id =>
          match lookupMap channel.permission_overwrites role_id with
          | none => ad
          | some overwrite => (ad.1 ||| overwrite.allow, ad.2 ||| overwrite.deny))
        (0, 0)
      let base := _apply_overwrites base ad.1 ad.2
      let base :=
        match lookupMap channel.permission_overwrites member.id with
        | none => base
        | some overwrite => _apply_overwrites base overwrite.allow overwrite.deny
      some (_ensure_perms base)

/-- `has_channel_perms(bot, member, channel, perms, guild)`: containment
test of `perms` in the channel-scoped effective set. -/
def has_channel_perms (guild : Guild) (member : Member) (channel : Channel)
    (perms : Nat) : Option Bool :=
  (channel_perms guild member channel).map (fun base => base &&& perms == perms)

/-! ## Staged formulation of the channel pipeline (from the spec's words)

The spec describes `has_channel_perms` as four separately named layers
applied in a fixed order: everyone overwrite, combined role overwrites,
member overwrite, then the dependent-permission stripping rule once more.
These definitions follow that wording; their composition is compared with
`channel_perms` (translated from the source) in the ordering claim. -/

/-- Spec wording: apply the everyone overwrite (keyed by the guild id) as
`(base & ~deny) | allow`. -/
def everyoneLayer (channel : Channel) (guildId base : Nat) : Option Nat :=
  (lookupMap channel.permission_overwrites guildId).map
    (fun ow => _apply_overwrites base ow.allow ow.deny)

/-- Spec wording: union the allow sets of all overwrites for the member's
held roles into one combined allow set. -/
def combinedRoleAllow (channel : Channel) (member : Member) : Nat :=
  member.role_ids.foldl
    (fun acc role_id =>
      match lookupMap channel.permission_overwrites role_id with
      | none => acc
      | some ow => acc ||| ow.allow) 0

/-- Spec wording: union the deny sets of all overwrites for the member's
held roles into one combined deny set. -/
def combinedRoleDeny (channel : Channel) (member : Member) : Nat :=
  member.role_ids.foldl
    (fun acc role_id =>
      match lookupMap channel.permission_overwrites role_id with
      | none => acc
      | some ow => acc ||| ow.deny) 0

/-- Spec wording: apply the combined role allow/deny sets in a single step. -/
def roleLayer (channel : Channel) (member : Member) (base : Nat) : Nat :=
  _apply_overwrites base (combinedRoleAllow channel member)
    (combinedRoleDeny channel member)

/-- Spec wording: apply the member-specific overwrite last, when present. -/
def memberLayer (channel : Channel) (memberId base : Nat) : Nat :=
  match lookupMap channel.permission_overwrites memberId with
  | none => base
  | some ow => _apply_overwrites base ow.allow ow.deny

/-- Spec wording: the channel-scoped pipeline as the ordered composition
of the layers, with the stripping rule applied once more at the end. -/
def channelPermsStaged (guild : Guild) (member : Member) (channel : Channel) :
    Option Nat :=
  match get_guild_perms guild member with
  | none => none
  | some base =>
    match everyoneLayer channel guild.id base with
    | none => none
    | some b1 => some (_ensure_perms (memberLayer channel member.id
        (roleLayer channel member b1)))

/-! ## Python string model for the prefix resolver

Strings are lists of code points.  `str.lower` is embedded with its ASCII
action (upper-case letters gain 32), `str.isspace` with Python's ASCII
whitespace set, and `str.strip()` drops that whitespace from both ends. -/

/-- A Python string as a list of code points. -/
abbrev PyStr := List Nat

/-- Code points of a Lean string literal, for concrete test inputs. -/
def str (s : String) : PyStr := s.toList.map Char.toNat

/-- Python `str.lower` on one code point (ASCII action). -/
def pyLowerCode (n : Nat) : Nat := if 65 ≤ n ∧ n ≤ 90 then n + 32 else n

/-- Python `str.lower`. -/
def pyLower (s : PyStr) : PyStr := s.map pyLowerCode

/-- Python `str.isspace` on one code point (ASCII whitespace:
tab, newline, vertical tab, form feed, carriage return, space). -/
def pyIsSpaceCode (n : Nat) : Bool :=
  decide (n = 9 ∨ n = 10 ∨ n = 11 ∨ n = 12 ∨ n = 13 ∨ n = 32)

/-- Python `str.strip()`: drop whitespace from both ends. -/
def pyStrip (s : PyStr) : PyStr :=
  ((s.dropWhile pyIsSpaceCode).reverse.dropWhile pyIsSpaceCode).reverse

/-- Python `content.startswith(pat)`. -/
def startsWithPy (pat s : PyStr) : Bool :=
  match pat, s with
  | [], _ => true
  | _ :: _, [] => false
  | p :: ps, c :: cs => p == c && startsWithPy ps cs

/-! ## `nokari/core/bot.py`: prefix resolution -/

/-- `_get_prefixes(bot, message)`: guild-scoped prefixes (falling back to
the default pair) followed by user-scoped prefixes (falling back to `[]`),
read from the `bot.prefixes` mapping. -/
def _get_prefixes (table : List (Nat × List PyStr)) (defaults : List PyStr)
    (guildId authorId : Nat) : List PyStr :=
  (lookupMap table guildId).getD defaults ++ (lookupMap table authorId).getD []

/-- `prefixes.sort(key=len, reverse=True)`: a stable sort by length,
longest first (Lean's insertion sort with this relation is stable, like
Python's sort). -/
def lenDescRel (a b : PyStr) : Prop := b.length ≤ a.length

instance : DecidableRel lenDescRel := fun a b => Nat.decLe b.length a.length

instance : IsTotal PyStr lenDescRel := ⟨fun a b => Nat.le_total b.length a.length⟩

instance : IsTrans PyStr lenDescRel :=
  ⟨fun _ _ _ hab hbc => Nat.le_trans hbc hab⟩

def sortByLenDesc (l : List PyStr) : List PyStr := l.insertionSort lenDescRel

/-- The loop body of `_resolve_prefix`: for each candidate, strip it
(`prefix = prefix.strip()`), test `lowered_content.startswith(prefix)`,
and on success extend the match over the immediately following whitespace
of the lowered content (the `while` loop appends those code points one at
a time, which is the `takeWhile` of the remainder) and return it. -/
def findMatch (lowered : PyStr) : List PyStr → Option PyStr
  | [] => none
  | cand :: rest =>
    if startsWithPy (pyStrip cand) lowered then
      some (pyStrip cand ++
        (lowered.drop (pyStrip cand).length).takeWhile pyIsSpaceCode)
    else findMatch lowered rest

/-- `_resolve_prefix(self, message)`: sort the candidates by length
descending (the sort also runs when the content is absent, which is
unobservable), lower the message content once, and return the first
(stripped, whitespace-extended) match; `none` when the content is absent
or no candidate matches. -/
def resolvePrefixFn (cands : List PyStr) (content : Option PyStr) :
    Option PyStr :=
  match content with
  | none => none
  | some msg => findMatch (pyLower msg) (sortByLenDesc cands)

/-! ## `nokari/core/commands.py`: the runnability gate -/

/-- The custom `Command` class: the `disabled` attribute may be unset
(`getattr(self, "disabled", False)`), and the command carries its
registered check chain (run by the superclass `is_runnable`). -/
structure Command (Ctx : Type) where
  disabled : Option Bool
  checks : List (Ctx → Except String Bool)

/-- `Command.is_runnable`: raise `CheckFailure("Command is disabled.")`
when the disabled flag is set, before delegating to the superclass
(`lightbulb.commands.Command.is_runnable`, external to this repository,
taken here as an arbitrary function of the registered checks). -/
def is_runnable {Ctx : Type}
    (superIsRunnable : List (Ctx → Except String Bool) → Ctx → Except String Bool)
    (cmd : Command Ctx) (ctx : Ctx) : Except String Bool :=
  if cmd.disabled.getD false then Except.error "Command is disabled."
  else superIsRunnable cmd.checks ctx

/-! ## `nokari/core/bot.py`: `load_extensions` -/

/-- Outcome of one `self.load_extension(extension)` call (the lightbulb
loader, external to this repository): success, `ExtensionMissingLoad`,
`ExtensionAlreadyLoaded`, or another `ExtensionError` carrying the
diagnostic that the handler prints. -/
inductive ExtResult where
  | ok
  | missingLoad
  | alreadyLoaded
  | extensionError (diag : String)
  deriving DecidableEq, Repr

/-- What a run of `load_extensions` did: extensions whose load succeeded,
those reported as missing their load entry point, and those reported as
failed with a diagnostic.  `ExtensionAlreadyLoaded` is silently swallowed
(`pass`). -/
structure LoadOutcome where
  loaded : List String
  reportedMissing : List String
  reportedFailed : List String
  deriving DecidableEq, Repr

/-- `load_extensions(self)`: iterate over all plugin identifiers, catching
each of the three extension errors so the loop always runs to completion. -/
def load_extensions (load : String → ExtResult) :
    List String → LoadOutcome
  | [] => ⟨[], [], []⟩
  | ext :: rest =>
    let tail := load_extensions load rest
    match load ext with
    | .ok => ⟨ext :: tail.loaded, tail.reportedMissing, tail.reportedFailed⟩
    | .missingLoad => ⟨tail.loaded, ext :: tail.reportedMissing, tail.reportedFailed⟩
    | .alreadyLoaded => tail
    | .extensionError _ => ⟨tail.loaded, tail.reportedMissing, ext :: tail.reportedFailed⟩

/-- A load behaviour where exactly the identifier `"b"` raises during
load, used to instantiate the three-plugin scenario. -/
def secondRaises (ext : String) : ExtResult :=
  if ext = "b" then .extensionError "boom" else .ok

/-! ## `nokari/core/bot.py`: the confirmation prompt

`prompt` sends the two-button message, waits (bounded by `timeout`) for a
matching component interaction, and then runs a `try` block whose
`finally` is `return confirm`.  The embedding records, for a given wait
outcome, what the coroutine returns and which external effects were
actually delivered.  On the timeout path the local variable `event` was
never assigned, so `event.interaction.create_initial_response(...)`
raises `NameError`; the `return confirm` inside `finally` swallows that
exception (the source carries `# pylint: disable=lost-exception`). -/

/-- Observable result of one `prompt` run. -/
structure PromptRun where
  /-- The boolean the coroutine returns. -/
  confirm : Bool
  /-- Whether `msg.delete()` was awaited. -/
  messageDeleted : Bool
  /-- Whether the local component builders were flagged `_is_disabled`. -/
  componentsMarkedDisabled : Bool
  /-- Whether the `MESSAGE_UPDATE` response that would disable the
  buttons on the actual message was delivered. -/
  disableUpdateSent : Bool
  deriving DecidableEq, Repr

/-- `prompt` for a given wait outcome: `waited = some b` means a matching
interaction arrived and the predicate set `confirm := b` (`"sure"` or
`"nvm"`); `waited = none` means `asyncio.TimeoutError`, caught and
ignored, leaving `confirm = False` and `event` unbound. -/
def prompt (waited : Option Bool) (delete_after : Bool) : PromptRun :=
  let confirm := waited.getD false
  if delete_after then
    { confirm := confirm, messageDeleted := true,
      componentsMarkedDisabled := false, disableUpdateSent := false }
  else
    match waited with
    | some _ =>
      { confirm := confirm, messageDeleted := false,
        componentsMarkedDisabled := true, disableUpdateSent := true }
    | none =>
      -- the for-loop marks the builders disabled, then `event` raises
      -- `NameError`, which `return confirm` in `finally` suppresses
      { confirm := false, messageDeleted := false,
        componentsMarkedDisabled := true, disableUpdateSent := false }

/-- Recognises the reported-with-diagnostic outcome of a load call. -/
def isExtensionError : ExtResult → Bool
  | .extensionError _ => true
  | _ => false

/-- The dependent-permission property claimed for sets produced by the
stripping rule: without `SEND_MESSAGES` none of the four send-dependent
flags survive, and without `VIEW_CHANNEL` no bit of the hardcoded
dependent mask survives. -/
def stripSpec (q : Nat) : Prop :=
  (q &&& SEND_MESSAGES = 0 →
    q &&& (SEND_TTS_MESSAGES ||| MENTION_ROLES ||| EMBED_LINKS ||| ATTACH_FILES) = 0) ∧
  (q &&& VIEW_CHANNEL = 0 → q &&& VIEW_CHANNEL_DEPENDENT_MASK = 0)

/-! ## Helper lemmas on the bit-set model -/

theorem testBit_clearBits (x m i : Nat) :
    (clearBits x m).testBit i = (x.testBit i && !(m.testBit i)) := by
  unfold clearBits
  simp only [Nat.testBit_xor, Nat.testBit_and]
  cases x.testBit i <;> cases m.testBit i <;> rfl

theorem clearBits_clearBits (x a b : Nat) :
    clearBits (clearBits x a) b = clearBits x (a ||| b) :=
  Nat.eq_of_testBit_eq fun i => by
    simp only [testBit_clearBits, Nat.testBit_or]
    cases x.testBit i <;> cases a.testBit i <;> cases b.testBit i <;> rfl

theorem clearBits_zero (x : Nat) : clearBits x 0 = x := by
  unfold clearBits
  simp

/-- Clearing `m` kills every subset `s` of `m` (`s &&& m = s`). -/
theorem clearBits_land_eq_zero {m s : Nat} (h : s &&& m = s) (x : Nat) :
    clearBits x m &&& s = 0 :=
  Nat.eq_of_testBit_eq fun i => by
    have hi := congrArg (fun t => Nat.testBit t i) h
    simp only [Nat.testBit_and] at hi
    simp only [Nat.testBit_and, testBit_clearBits, Nat.zero_testBit]
    cases hs : s.testBit i <;> cases hm : m.testBit i <;>
      cases hx : x.testBit i <;> simp_all

/-- From a bit-subset fact `a &&& b = a`, a set bit of `a` is set in `b`. -/
theorem testBit_of_land_eq {a b : Nat} (h : a &&& b = a) {i : Nat}
    (ha : a.testBit i = true) : b.testBit i = true := by
  have hi := congrArg (fun t => Nat.testBit t i) h
  simp only [Nat.testBit_and, ha, Bool.true_and] at hi
  exact hi

/-- Pointwise criterion for the bit-subset fact `a &&& b = a`. -/
theorem land_eq_left_of_forall {a b : Nat}
    (h : ∀ i, a.testBit i = true → b.testBit i = true) : a &&& b = a :=
  Nat.eq_of_testBit_eq fun i => by
    simp only [Nat.testBit_and]
    cases ha : a.testBit i
    · simp
    · simp [h i ha]

theorem land_two_pow_ne_zero {b i : Nat} (h : b.testBit i = true) :
    b &&& 2 ^ i ≠ 0 := by
  intro h0
  have hi := congrArg (fun t => Nat.testBit t i) h0
  simp only [Nat.testBit_and, h, Bool.true_and, Nat.zero_testBit,
    Nat.testBit_two_pow_self] at hi
  exact Bool.noConfusion hi

/-- A full set stays full after a union. -/
theorem full_land_lor {b : Nat} (hb : ALL_PERMS &&& b = ALL_PERMS) (c : Nat) :
    ALL_PERMS &&& (b ||| c) = ALL_PERMS :=
  land_eq_left_of_forall fun i hi => by
    simp [Nat.testBit_or, testBit_of_land_eq hb hi]

/-- `_ensure_perms` is the identity on any superset of the full set. -/
theorem ensure_perms_of_full {b : Nat} (hb : ALL_PERMS &&& b = ALL_PERMS) :
    _ensure_perms b = b := by
  have hsend : b.testBit 11 = true :=
    testBit_of_land_eq hb (i := 11) (by decide)
  have hview : b.testBit 10 = true :=
    testBit_of_land_eq hb (i := 10) (by decide)
  unfold _ensure_perms ensureSendStep ensureViewStep SEND_MESSAGES VIEW_CHANNEL
  rw [if_neg (land_two_pow_ne_zero hsend)]
  rw [if_neg (land_two_pow_ne_zero hview)]

theorem lookupMap_some_mem {α : Type} {m : List (Nat × α)} {k : Nat} {v : α}
    (h : lookupMap m k = some v) : ∃ e ∈ m, e.2 = v := by
  unfold lookupMap at h
  cases hf : m.find? (fun e => e.1 == k) with
  | none => rw [hf] at h; cases h
  | some e =>
    rw [hf] at h
    cases h
    exact ⟨e, List.mem_of_find?_eq_some hf, rfl⟩

/-- The combined allow/deny pair fold in `has_channel_perms` is the pair of
the two single-component folds described by the spec. -/
theorem roleFold_eq (ch : Channel) (ids : List Nat) (a d : Nat) :
    (ids.foldl
      (fun (ad : Nat × Nat) role_id =>
        match lookupMap ch.permission_overwrites role_id with
        | none => ad
        | some ow => (ad.1 ||| ow.allow, ad.2 ||| ow.deny)) (a, d)) =
    (ids.foldl
      (fun acc role_id =>
        match lookupMap ch.permission_overwrites role_id with
        | none => acc
        | some ow => acc ||| ow.allow) a,
     ids.foldl
      (fun acc role_id =>
        match lookupMap ch.permission_overwrites role_id with
        | none => acc
        | some ow => acc ||| ow.deny) d) := by
  induction ids generalizing a d with
  | nil => rfl
  | cons x xs ih =>
    simp only [List.foldl_cons]
    cases lookupMap ch.permission_overwrites x <;> simp [ih]

/-- In a channel whose overwrites all have empty deny sets, the combined
role deny fold stays zero. -/
theorem denyFold_eq_zero (ch : Channel)
    (hd : ∀ e ∈ ch.permission_overwrites, e.2.deny = 0) (ids : List Nat) :
    ids.foldl
      (fun acc role_id =>
        match lookupMap ch.permission_overwrites role_id with
        | none => acc
        | some ow => acc ||| ow.deny) 0 = 0 := by
  induction ids with
  | nil => rfl
  | cons x xs ih =>
    simp only [List.foldl_cons]
    cases hx : lookupMap ch.permission_overwrites x with
    | none => exact ih
    | some ow =>
      obtain ⟨e, hmem, he⟩ := lookupMap_some_mem hx
      have : ow.deny = 0 := he ▸ hd e hmem
      simpa [this] using ih

theorem stripSpec_ALL : stripSpec ALL_PERMS := by
  constructor <;> intro h <;> exact absurd h (by decide)

/-- After a positive `SEND_MESSAGES` check, the four sequential clears are
one clear of the union of the four flags. -/
theorem ensureSendStep_pos {p : Nat} (h : p &&& SEND_MESSAGES = 0) :
    ensureSendStep p =
      clearBits p (SEND_TTS_MESSAGES ||| (MENTION_ROLES |||
        (EMBED_LINKS ||| ATTACH_FILES))) := by
  unfold ensureSendStep
  rw [if_pos h, clearBits_clearBits, clearBits_clearBits, clearBits_clearBits]

/-- Core of the dependent-stripping claim: `_ensure_perms` output always
satisfies `stripSpec`. -/
theorem ensure_perms_stripSpec (p : Nat) : stripSpec (_ensure_perms p) := by
  unfold stripSpec _ensure_perms ensureViewStep
  by_cases h2 : ensureSendStep p &&& VIEW_CHANNEL = 0
  · rw [if_pos h2]
    exact ⟨fun _ => clearBits_land_eq_zero (by decide) _,
      fun _ => clearBits_land_eq_zero (by decide) _⟩
  · rw [if_neg h2]
    refine ⟨fun hs => ?_, fun hv => absurd hv h2⟩
    by_cases h1 : p &&& SEND_MESSAGES = 0
    · rw [ensureSendStep_pos h1]
      exact clearBits_land_eq_zero (by decide) _
    · unfold ensureSendStep at hs
      rw [if_neg h1] at hs
      exact absurd hs h1

/-! ## Claim theorems: the permission engine -/

/-- C4: every permission set produced by the dependent-permission
stripping rule — and hence every `some` result of guild-wide or
channel-scoped effective-permission computation — satisfies `stripSpec`:
without `SEND_MESSAGES` it contains none of `SEND_TTS_MESSAGES`,
`MENTION_ROLES`, `EMBED_LINKS`, `ATTACH_FILES`, and without `VIEW_CHANNEL`
it contains no bit of the fixed dependent bitmask. -/
theorem c4_dependent_stripping (q : Nat)
    (h : (∃ p, q = _ensure_perms p) ∨
      (∃ g m, get_guild_perms g m = some q) ∨
      (∃ g m ch, channel_perms g m ch = some q)) :
    stripSpec q := by
  rcases h with ⟨p, rfl⟩ | ⟨g, m, hg⟩ | ⟨g, m, ch, hc⟩
  · exact ensure_perms_stripSpec p
  · unfold get_guild_perms at hg
    split at hg
    · cases hg
      exact stripSpec_ALL
    · split at hg
      · cases hg
      · split at hg
        · cases hg
          exact stripSpec_ALL
        · cases hg
          exact ensure_perms_stripSpec _
  · unfold channel_perms at hc
    split at hc
    · cases hc
    · split at hc
      · cases hc
      · split at hc <;>
          · cases hc
            exact ensure_perms_stripSpec _

/-- C4 witness: the stripping property at a concrete input. -/
theorem c4_dependent_stripping_witness :
    stripSpec (_ensure_perms VIEW_CHANNEL) :=
  c4_dependent_stripping _ (Or.inl ⟨VIEW_CHANNEL, rfl⟩)

/-- The source's single-pass `has_channel_perms` pipeline computes exactly
the staged layer composition. -/
theorem channel_perms_eq_staged (g : Guild) (m : Member) (ch : Channel) :
    channel_perms g m ch = channelPermsStaged g m ch := by
  unfold channel_perms channelPermsStaged everyoneLayer roleLayer memberLayer
    combinedRoleAllow combinedRoleDeny
  cases get_guild_perms g m with
  | none => rfl
  | some base =>
    cases hev : lookupMap ch.permission_overwrites g.id with
    | none => simp
    | some everyone =>
      simp only [Option.map_some']
      rw [roleFold_eq]

/-- C3: the channel-scoped computation equals the spec's staged pipeline —
everyone overwrite first (as `(base & ~deny) | allow`), then the combined
role allow/deny sets in one step, then the member overwrite when present,
then the dependent-permission stripping rule once more. -/
theorem c3_overwrite_order (g : Guild) (m : Member) (ch : Channel) :
    channel_perms g m ch = channelPermsStaged g m ch :=
  channel_perms_eq_staged g m ch

/-- C1 counterexample: a guild owner (`owner_id = member.id = 1`) is
refused `SEND_MESSAGES` by `has_channel_perms` when the channel's everyone
overwrite denies it — the channel layers are not bypassed for owners, so
the claim's universally-quantified `true` fails at this input. -/
theorem c1_counterexample :
    (Guild.mk 10 1 [(10, Role.mk 10 0)]).owner_id = (Member.mk 1 []).id ∧
    has_channel_perms (Guild.mk 10 1 [(10, Role.mk 10 0)]) (Member.mk 1 [])
      (Channel.mk [(10, Overwrite.mk 0 SEND_MESSAGES)]) SEND_MESSAGES =
      some false := by
  exact ⟨rfl, by decide⟩

/-- C1 amended: for a guild owner (or a member whose aggregated role
permissions contain `ADMINISTRATOR`), the guild-wide computation returns
the full permission set; the channel-scoped computation still applies the
channel overwrites on top of it, so `has_channel_perms` is `some true`
for every permission set `P` (within the permission space) whenever the
everyone overwrite exists and no overwrite in the channel denies any bit. -/
theorem c1_owner_admin_full (g : Guild) (m : Member) (ch : Channel)
    (hoa : g.owner_id = m.id ∨
      (∃ r, aggregatedRolePerms g m = some r ∧ r &&& ADMINISTRATOR ≠ 0))
    (hev : (lookupMap ch.permission_overwrites g.id).isSome = true)
    (hdeny : ∀ e ∈ ch.permission_overwrites, e.2.deny = 0) :
    get_guild_perms g m = some ALL_PERMS ∧
    ∀ P, P &&& ALL_PERMS = P → has_channel_perms g m ch P = some true := by
  have hfull : get_guild_perms g m = some ALL_PERMS := by
    unfold get_guild_perms
    by_cases how : g.owner_id = m.id
    · rw [if_pos how]
    · rw [if_neg how]
      rcases hoa with h | ⟨r, hr, hadm⟩
      · exact absurd h how
      · rw [hr]
        show (if r &&& ADMINISTRATOR ≠ 0 then some ALL_PERMS
          else some (_ensure_perms r)) = some ALL_PERMS
        rw [if_pos hadm]
  refine ⟨hfull, fun P hP => ?_⟩
  unfold has_channel_perms
  rw [channel_perms_eq_staged]
  unfold channelPermsStaged everyoneLayer
  rw [hfull]
  cases hov : lookupMap ch.permission_overwrites g.id with
  | none =>
    rw [hov] at hev
    simp at hev
  | some ow =>
    simp only [Option.map_some']
    obtain ⟨e, hmem, he⟩ := lookupMap_some_mem hov
    have hd0 : ow.deny = 0 := he ▸ hdeny e hmem
    have step : ∀ (b a : Nat), ALL_PERMS &&& b = ALL_PERMS →
        ALL_PERMS &&& _apply_overwrites b a 0 = ALL_PERMS := fun b a hb => by
      unfold _apply_overwrites
      rw [clearBits_zero]
      exact full_land_lor hb a
    have h1 : ALL_PERMS &&& _apply_overwrites ALL_PERMS ow.allow ow.deny =
        ALL_PERMS := by
      rw [hd0]
      exact step _ _ (by decide)
    have h2 : ALL_PERMS &&&
        roleLayer ch m (_apply_overwrites ALL_PERMS ow.allow ow.deny) =
        ALL_PERMS := by
      unfold roleLayer
      rw [show combinedRoleDeny ch m = 0 from denyFold_eq_zero ch hdeny m.role_ids]
      exact step _ _ h1
    have h3 : ALL_PERMS &&& memberLayer ch m.id
        (roleLayer ch m (_apply_overwrites ALL_PERMS ow.allow ow.deny)) =
        ALL_PERMS := by
      unfold memberLayer
      cases hmm : lookupMap ch.permission_overwrites m.id with
      | none => exact h2
      | some ow2 =>
        obtain ⟨e2, hmem2, he2⟩ := lookupMap_some_mem hmm
        have hd2 : ow2.deny = 0 := he2 ▸ hdeny e2 hmem2
        show ALL_PERMS &&& _apply_overwrites
          (roleLayer ch m (_apply_overwrites ALL_PERMS ow.allow ow.deny))
          ow2.allow ow2.deny = ALL_PERMS
        rw [hd2]
        exact step _ _ h2
    rw [ensure_perms_of_full h3]
    have hfin : memberLayer ch m.id
        (roleLayer ch m (_apply_overwrites ALL_PERMS ow.allow ow.deny)) &&& P =
        P := by
      rw [Nat.and_comm]
      exact land_eq_left_of_forall fun i hi =>
        testBit_of_land_eq h3 (testBit_of_land_eq hP hi)
    simp [hfin]

/-- C1 amended witness: a concrete owner with a deny-free everyone
overwrite gets the full permission set through the channel computation. -/
theorem c1_owner_admin_full_witness :
    get_guild_perms (Guild.mk 10 1 [(10, Role.mk 10 0)]) (Member.mk 1 []) =
      some ALL_PERMS ∧
    has_channel_perms (Guild.mk 10 1 [(10, Role.mk 10 0)]) (Member.mk 1 [])
      (Channel.mk [(10, Overwrite.mk 0 0)]) ALL_PERMS = some true := by
  have h := c1_owner_admin_full (Guild.mk 10 1 [(10, Role.mk 10 0)])
    (Member.mk 1 []) (Channel.mk [(10, Overwrite.mk 0 0)])
    (Or.inl rfl) (by decide) (by decide)
  exact ⟨h.1, h.2 ALL_PERMS (by decide)⟩

/-- C6 counterexample: with a well-formed guild (everyone role present)
and a channel carrying no overwrites at all, the guild-wide computation
succeeds but the channel-scoped computation fails (`none`, the `KeyError`
of `channel.permission_overwrites[guild.id]`) instead of skipping the
everyone layer. -/
theorem c6_counterexample :
    get_guild_perms
      (Guild.mk 10 99 [(10, Role.mk 10 (SEND_MESSAGES ||| VIEW_CHANNEL))])
      (Member.mk 1 []) = some (SEND_MESSAGES ||| VIEW_CHANNEL) ∧
    channel_perms
      (Guild.mk 10 99 [(10, Role.mk 10 (SEND_MESSAGES ||| VIEW_CHANNEL))])
      (Member.mk 1 []) (Channel.mk []) = none := by
  exact ⟨by decide, by decide⟩

/-- C6 amended: the everyone-overwrite lookup is unconditional, so the
channel-scoped computation fails whenever the channel has no overwrite
keyed by the guild id; and (as the claim says) the guild-wide computation
fails for a non-owner when the guild's role mapping lacks the everyone
role keyed by the guild id. -/
theorem c6_lookup_errors :
    (∀ g m ch, lookupMap ch.permission_overwrites g.id = none →
      channel_perms g m ch = none) ∧
    (∀ g m, g.owner_id ≠ m.id → lookupMap g.roles g.id = none →
      get_guild_perms g m = none) := by
  constructor
  · intro g m ch h
    unfold channel_perms
    cases get_guild_perms g m <;> simp [h]
  · intro g m h1 h2
    unfold get_guild_perms aggregatedRolePerms
    rw [if_neg h1, h2]

/-- C6 amended witness: both failure modes at concrete inputs. -/
theorem c6_lookup_errors_witness :
    channel_perms (Guild.mk 10 99 [(10, Role.mk 10 0)]) (Member.mk 1 [])
      (Channel.mk []) = none ∧
    get_guild_perms (Guild.mk 10 1 []) (Member.mk 2 []) = none :=
  ⟨c6_lookup_errors.1 _ _ _ (by decide), c6_lookup_errors.2 _ _ (by decide) (by decide)⟩

/-! ## Helper lemmas on the prefix resolver -/

/-- Any successful `findMatch` result is the stripped text of one of the
scanned candidates, extended with the whitespace run of the lowered
content that follows the match. -/
theorem findMatch_some {lowered r : PyStr} :
    ∀ {S : List PyStr}, findMatch lowered S = some r →
      ∃ c, c ∈ S ∧ startsWithPy (pyStrip c) lowered = true ∧
        r = pyStrip c ++
          (lowered.drop (pyStrip c).length).takeWhile pyIsSpaceCode := by
  intro S
  induction S with
  | nil => intro h; exact absurd h (by simp [findMatch])
  | cons a t ih =>
    intro h
    unfold findMatch at h
    by_cases ha : startsWithPy (pyStrip a) lowered = true
    · rw [if_pos ha] at h
      exact ⟨a, List.mem_cons_self a t, ha, (Option.some.inj h).symm⟩
    · rw [if_neg ha] at h
      obtain ⟨c, hmem, hsw, hre⟩ := ih h
      exact ⟨c, List.mem_cons_of_mem a hmem, hsw, hre⟩

/-- Over a length-descending sorted candidate list whose elements are
unchanged by stripping, `findMatch` returns a match at least as long as
any matching candidate. -/
theorem findMatch_sorted_longest {lowered c : PyStr}
    (hm : startsWithPy c lowered = true) :
    ∀ {S : List PyStr}, List.Sorted lenDescRel S →
      (∀ x ∈ S, pyStrip x = x) → c ∈ S →
      ∃ mtch, mtch ∈ S ∧ startsWithPy mtch lowered = true ∧
        c.length ≤ mtch.length ∧
        findMatch lowered S =
          some (mtch ++ (lowered.drop mtch.length).takeWhile pyIsSpaceCode) := by
  intro S
  induction S with
  | nil => intro _ _ hc; cases hc
  | cons a t ih =>
    intro hs hstrip hc
    have hsa : pyStrip a = a := hstrip a (List.mem_cons_self a t)
    by_cases ha : startsWithPy (pyStrip a) lowered = true
    · refine ⟨a, List.mem_cons_self a t, hsa ▸ ha, ?_, ?_⟩
      · rcases List.mem_cons.mp hc with rfl | hct
        · exact Nat.le_refl _
        · exact List.rel_of_sorted_cons hs c hct
      · unfold findMatch
        rw [if_pos ha, hsa]
    · have hct : c ∈ t := by
        rcases List.mem_cons.mp hc with rfl | hct
        · exact absurd (by rw [hsa]; exact hm) ha
        · exact hct
      obtain ⟨mtch, hmem, hsw, hlen, heq⟩ :=
        ih (List.sorted_cons.mp hs).2
          (fun x hx => hstrip x (List.mem_cons_of_mem a hx)) hct
      refine ⟨mtch, List.mem_cons_of_mem a hmem, hsw, hlen, ?_⟩
      unfold findMatch
      rw [if_neg ha]
      exact heq

/-- A candidate whose stripped text matches guarantees `findMatch`
succeeds. -/
theorem findMatch_isSome_of_mem {lowered c : PyStr}
    (h : startsWithPy (pyStrip c) lowered = true) :
    ∀ {S : List PyStr}, c ∈ S → (findMatch lowered S).isSome = true := by
  intro S
  induction S with
  | nil => intro hc; cases hc
  | cons a t ih =>
    intro hc
    unfold findMatch
    by_cases ha : startsWithPy (pyStrip a) lowered = true
    · rw [if_pos ha]
      rfl
    · rw [if_neg ha]
      rcases List.mem_cons.mp hc with rfl | hct
      · exact absurd h ha
      · exact ih hct

/-- ASCII lowering preserves whitespace-ness of a code point. -/
theorem pyIsSpaceCode_pyLowerCode (n : Nat) :
    pyIsSpaceCode (pyLowerCode n) = pyIsSpaceCode n := by
  unfold pyLowerCode
  split
  · rename_i h
    unfold pyIsSpaceCode
    rw [decide_eq_decide]
    omega
  · rfl

/-- ASCII lowering leaves whitespace code points unchanged. -/
theorem pyLowerCode_of_space {n : Nat} (h : pyIsSpaceCode n = true) :
    pyLowerCode n = n := by
  unfold pyIsSpaceCode at h
  rw [decide_eq_true_eq] at h
  unfold pyLowerCode
  rw [if_neg (by omega)]

/-- The leading whitespace run of the lowered content is the leading
whitespace run of the original content. -/
theorem takeWhile_space_pyLower (s : PyStr) :
    (pyLower s).takeWhile pyIsSpaceCode = s.takeWhile pyIsSpaceCode := by
  induction s with
  | nil => rfl
  | cons n t ih =>
    show (pyLowerCode n :: pyLower t).takeWhile pyIsSpaceCode = _
    rw [List.takeWhile_cons, List.takeWhile_cons, pyIsSpaceCode_pyLowerCode]
    cases h : pyIsSpaceCode n
    · simp
    · simp [pyLowerCode_of_space h, ih]

/-! ## Claim theorems: the prefix resolver -/

/-- C2 counterexample: for candidates `["n!", "nokari"]` and message
`"Nokari   ping"`, the resolver does not return the original-case
substring `"Nokari   "` of the message. -/
theorem c2_counterexample :
    resolvePrefixFn [str "n!", str "nokari"] (some (str "Nokari   ping")) ≠
      some (str "Nokari   ") := by
  decide

/-- C2 amended: a successful resolution returns the stripped matched
candidate itself (in the candidate's own case, not the original-case
substring of the message), extended with the whitespace code points that
follow the match in the case-folded message. -/
theorem c2_trimmed_candidate_returned (cands : List PyStr) (msg r : PyStr)
    (hr : resolvePrefixFn cands (some msg) = some r) :
    ∃ c, c ∈ cands ∧ startsWithPy (pyStrip c) (pyLower msg) = true ∧
      r = pyStrip c ++
        ((pyLower msg).drop (pyStrip c).length).takeWhile pyIsSpaceCode := by
  obtain ⟨c, hmem, hsw, hre⟩ := findMatch_some hr
  exact ⟨c, by simpa [sortByLenDesc] using hmem, hsw, hre⟩

/-- C2 amended witness: the concrete example resolves to `"nokari   "`
(lower-case candidate text plus the absorbed whitespace). -/
theorem c2_trimmed_candidate_returned_witness :
    resolvePrefixFn [str "n!", str "nokari"] (some (str "Nokari   ping")) =
      some (str "nokari   ") ∧
    ∃ c, c ∈ [str "n!", str "nokari"] ∧
      startsWithPy (pyStrip c) (pyLower (str "Nokari   ping")) = true ∧
      str "nokari   " = pyStrip c ++
        ((pyLower (str "Nokari   ping")).drop (pyStrip c).length).takeWhile
          pyIsSpaceCode :=
  ⟨by decide, c2_trimmed_candidate_returned _ _ _ (by decide)⟩

/-- C5 counterexample: candidates are sorted by their untrimmed length, so
for candidates `["a ", "ab"]` and message `"ab"` the candidate `"a "`
(trimmed to `"a"`) wins although the strictly longer candidate `"ab"`
also matches — the resolver does not return the longest matching
candidate's prefix `"ab"`. -/
theorem c5_counterexample :
    startsWithPy (pyStrip (str "ab")) (pyLower (str "ab")) = true ∧
    resolvePrefixFn [str "a ", str "ab"] (some (str "ab")) = some (str "a") ∧
    resolvePrefixFn [str "a ", str "ab"] (some (str "ab")) ≠ some (str "ab") := by
  refine ⟨by decide, by decide, by decide⟩

/-- C5 amended: the resolver scans candidates in a stable order of
descending untrimmed length (guild-scoped candidates listed before
user-scoped ones); hence, when no candidate carries surrounding
whitespace, the returned match is at least as long as every matching
candidate — longest match wins, ties broken by candidate order. -/
theorem c5_longest_when_trim_invariant (cands : List PyStr) (msg c : PyStr)
    (hstrip : ∀ x ∈ cands, pyStrip x = x) (hc : c ∈ cands)
    (hm : startsWithPy c (pyLower msg) = true) :
    ∃ mtch, mtch ∈ cands ∧ startsWithPy mtch (pyLower msg) = true ∧
      c.length ≤ mtch.length ∧
      resolvePrefixFn cands (some msg) =
        some (mtch ++
          ((pyLower msg).drop mtch.length).takeWhile pyIsSpaceCode) := by
  have hs : List.Sorted lenDescRel (sortByLenDesc cands) :=
    List.sorted_insertionSort lenDescRel cands
  have hstrip2 : ∀ x ∈ sortByLenDesc cands, pyStrip x = x := fun x hx =>
    hstrip x (by simpa [sortByLenDesc] using hx)
  have hc2 : c ∈ sortByLenDesc cands := by simpa [sortByLenDesc] using hc
  obtain ⟨mtch, hmem, hsw, hlen, heq⟩ :=
    findMatch_sorted_longest hm hs hstrip2 hc2
  exact ⟨mtch, by simpa [sortByLenDesc] using hmem, hsw, hlen, heq⟩

/-- C5 amended witness: for candidates `["a", "ab"]` (as produced by
`_get_prefixes` from a guild entry) and message `"abc"`, the longest
matching candidate `"ab"` wins. -/
theorem c5_longest_witness :
    resolvePrefixFn (_get_prefixes [(5, [str "a", str "ab"])] [str "n!"] 5 7)
      (some (str "abc")) = some (str "ab") ∧
    ∃ mtch, mtch ∈ [str "a", str "ab"] ∧
      startsWithPy mtch (pyLower (str "abc")) = true ∧
      (str "ab").length ≤ mtch.length ∧
      resolvePrefixFn [str "a", str "ab"] (some (str "abc")) =
        some (mtch ++
          ((pyLower (str "abc")).drop mtch.length).takeWhile pyIsSpaceCode) :=
  ⟨by decide,
    c5_longest_when_trim_invariant [str "a", str "ab"] (str "abc") (str "ab")
      (by decide) (by decide) (by decide)⟩

/-- C10: when the candidate list contains a candidate that strips to the
empty string, resolution never returns `none` for a present message
content; and with such a candidate alone, the resolver returns the
(possibly empty) leading whitespace run of the message. -/
theorem c10_blank_candidate (cands : List PyStr) (msg c : PyStr)
    (hc : c ∈ cands) (hblank : pyStrip c = []) :
    (resolvePrefixFn cands (some msg)).isSome = true ∧
    resolvePrefixFn [c] (some msg) = some (msg.takeWhile pyIsSpaceCode) := by
  constructor
  · have hm : startsWithPy (pyStrip c) (pyLower msg) = true := by
      rw [hblank]
      rfl
    exact findMatch_isSome_of_mem hm (by simpa [sortByLenDesc] using hc)
  · show findMatch (pyLower msg) (sortByLenDesc [c]) = _
    have hone : sortByLenDesc [c] = [c] := rfl
    rw [hone]
    unfold findMatch
    rw [hblank]
    simp [startsWithPy, takeWhile_space_pyLower]

/-- C10 witness: a whitespace-only candidate makes every message resolve;
alone, it resolves to the message's leading whitespace run. -/
theorem c10_blank_candidate_witness :
    (resolvePrefixFn [str "n!", str " "] (some (str "hello"))).isSome = true ∧
    resolvePrefixFn [str " "] (some (str "hello")) =
      some ((str "hello").takeWhile pyIsSpaceCode) :=
  c10_blank_candidate [str "n!", str " "] (str "hello") (str " ")
    (by decide) (by decide)

/-! ## Claim theorems: command gate, plugin loader, confirmation prompt -/

/-- C7: a command whose disabled flag is set fails its runnability check
with `"Command is disabled."` whatever the registered check chain and
whatever the superclass would do with it — so no explicit check is ever
consulted. -/
theorem c7_disabled_short_circuit {Ctx : Type}
    (superIsRunnable : List (Ctx → Except String Bool) → Ctx →
      Except String Bool)
    (cmd : Command Ctx) (ctx : Ctx) (h : cmd.disabled = some true) :
    is_runnable superIsRunnable cmd ctx =
      Except.error "Command is disabled." := by
  unfold is_runnable
  rw [h]
  rfl

/-- C7 witness: a concrete disabled command with a passing check chain
still fails with the disabled reason. -/
theorem c7_disabled_short_circuit_witness :
    is_runnable (fun _ _ => Except.ok true)
      (Command.mk (some true) [fun (_ : Nat) => Except.ok false]) 0 =
      Except.error "Command is disabled." :=
  c7_disabled_short_circuit _ _ _ rfl

/-- C8: the batch loader is total — it processes every identifier, loads
exactly those whose load call succeeds, reports exactly those missing a
load entry point or raising during load, and silently skips the already
loaded ones; in the three-identifier scenario where only the second
raises, the first and third are loaded and the second is reported. -/
theorem c8_load_all :
    (∀ (load : String → ExtResult) (exts : List String),
      (load_extensions load exts).loaded =
        exts.filter (fun e => load e == ExtResult.ok) ∧
      (load_extensions load exts).reportedMissing =
        exts.filter (fun e => load e == ExtResult.missingLoad) ∧
      (load_extensions load exts).reportedFailed =
        exts.filter (fun e => isExtensionError (load e))) ∧
    load_extensions secondRaises ["a", "b", "c"] =
      LoadOutcome.mk ["a", "c"] [] ["b"] := by
  constructor
  · intro load exts
    induction exts with
    | nil => exact ⟨rfl, rfl, rfl⟩
    | cons e rest ih =>
      obtain ⟨ih1, ih2, ih3⟩ := ih
      unfold load_extensions
      cases h : load e <;>
        simp [List.filter_cons, h, isExtensionError, ih1, ih2, ih3]
  · rfl

/-- C9: evaluating `prompt` on the timeout path with `delete_after=False`
— the coroutine returns the default declined outcome (`false`) and marks
the local component builders disabled, but the `MESSAGE_UPDATE` that
would disable the buttons on the message is never delivered: the unbound
`event` raises `NameError`, which the `return` inside `finally`
suppresses.  The claim's cleanup-on-timeout-path promise fails on
this input. -/
theorem c9_timeout_no_cleanup :
    prompt none false =
      PromptRun.mk false false true false ∧
    (prompt none false).disableUpdateSent = false ∧
    (prompt none false).confirm = false := by
  exact ⟨rfl, rfl, rfl⟩

end Nokari
